import Mathlib

/-!
Shallow embedding of `zhash.go` (package `libdeploy`): a dynamically typed
configuration tree `Config = map[string]interface{}` with path-addressed
reads (`GetPath`), writes (`Set`), typed accessors (`GetMap`, `GetString`,
`GetSlice`, `GetStringSlice`, `GetBool`, `GetInt`, `GetFloat`) and a
required-field validator (`Validate`).

Modelling choices:
* Go maps are modelled as association lists with unique-key update
  (`mapSet`) and lookup that returns `nil` for a missing key (`mapGet`),
  matching Go's zero-value semantics for `interface{}` indexing.
* A Go `interface{}` value in the tree is a `Value`: `nil`, `string`,
  `bool`, `int`, `int64`, `float64`, `[]interface{}`, the unnamed type
  `map[string]interface{}` (`vMap`) or the named type `Config` (`vConfig`).
  The source's type switches distinguish `map[string]interface{}` from
  `Config` (see `Set`, lines 67-75, which has a `case Config:` that
  `GetPath` and `Validate` lack), so the model keeps them distinct.
* `float64` values are never computed with (only stored, returned, or
  produced by a Go conversion `float64(n)` from an integer), so they are
  modelled as an inductive of uninterpreted atoms: `Float64.lit` for a
  stored float literal and `Float64.ofInt n` for the widening conversion.
* Go `int` and `int64` are both modelled by unbounded `Int`; the code does
  no integer arithmetic, only the value-preserving conversion `int64(val)`.
* `(T, error)` returns become `Except GoError T`; the accompanying Go
  zero values (`""`, `0`, empty map, ...) are returned only alongside a
  non-nil error and are never observed by callers, so they are dropped.
* Configs are modelled as trees (no aliasing of sub-maps inside one tree),
  matching the spec's ownership model; `Set`'s in-place mutation becomes
  functional reconstruction along the written path.
-/

/-- REQUIRED is the sentinel string constant from `zhash.go` line 14. -/
def REQUIRED : String := "[REQUIRED]"

/-- Float64 models Go `float64` values abstractly: the code stores and
returns floats but never computes with them, so a stored literal is an
uninterpreted atom `lit` and the Go conversion `float64(n)` from `int` or
`int64` is the injective constructor `ofInt`. -/
inductive Float64 where
  | lit : Nat → Float64
  | ofInt : Int → Float64
deriving DecidableEq, Repr

/-- Value models a Go `interface{}` stored in the configuration tree.
`vNil` is the `nil` interface (also what indexing a map at a missing key
yields); `vMap` is the unnamed `map[string]interface{}`; `vConfig` is the
named map type `Config`, which Go type switches treat as a distinct case. -/
inductive Value where
  | vNil : Value
  | vStr : String → Value
  | vBool : Bool → Value
  | vInt : Int → Value
  | vInt64 : Int → Value
  | vFloat : Float64 → Value
  | vSeq : List Value → Value
  | vMap : List (String × Value) → Value
  | vConfig : List (String × Value) → Value

/-- Config models the named Go type `Config map[string]interface{}`
(`zhash.go` line 16), as an association list with unique keys. -/
abbrev Config := List (String × Value)

/-- mapGet models Go map indexing `m[k]` on a `map[string]interface{}`:
the stored value if the key is present, the `nil` interface otherwise. -/
def mapGet : Config → String → Value
  | [], _ => .vNil
  | (k, v) :: rest, key => if k = key then v else mapGet rest key

/-- mapSet models Go map assignment `m[k] = v`: it replaces the binding of
an existing key and otherwise adds a fresh binding. -/
def mapSet : Config → String → Value → Config
  | [], key, v => [(key, v)]
  | (k, w) :: rest, key, v =>
      if k = key then (key, v) :: rest else (k, w) :: mapSet rest key v

/-- hasKey models the Go comma-ok key-membership test on a map. -/
def hasKey : Config → String → Bool
  | [], _ => false
  | (k, _) :: rest, key => k = key || hasKey rest key

/-- Config.Set is the translation of `Config.Set` (`zhash.go` lines 62-81).
The Go loop keeps `key` at the last segment seen and a pointer `ptr` to the
current map; every non-final segment either descends into a
`map[string]interface{}` or `Config` value or overwrites the key with a
fresh empty map and descends into it; after the loop `ptr[key] = value`.
With an empty path the loop body never runs, so `key` is `""` and the root
map gets the binding `"" ↦ value`. -/
def Config.Set : Config → Value → List String → Config
  | c, value, [] => mapSet c "" value
  | c, value, [k] => mapSet c k value
  | c, value, k :: r :: rest =>
      match mapGet c k with
      | .vMap node => mapSet c k (.vMap (Config.Set node value (r :: rest)))
      | .vConfig node => mapSet c k (.vConfig (Config.Set node value (r :: rest)))
      | _ => mapSet c k (.vMap (Config.Set [] value (r :: rest)))

/-- Config.GetPath is the translation of `Config.GetPath` (`zhash.go`
lines 83-99): at the final segment it returns whatever the map holds
there (`nil` when absent); at a non-final segment it descends only when
the value is an unnamed `map[string]interface{}`, and otherwise returns
`nil`; the empty path falls through the loop and returns `nil`. -/
def Config.GetPath : Config → List String → Value
  | _, [] => .vNil
  | c, [k] => mapGet c k
  | c, k :: r :: rest =>
      match mapGet c k with
      | .vMap node => Config.GetPath node (r :: rest)
      | _ => .vNil

example : Config.GetPath (Config.Set [] (.vInt 7) ["a", "b"]) ["a", "b"] = .vInt 7 := rfl
example : Config.Set [("a", .vConfig [])] (.vInt 1) ["a", "b"]
    = [("a", .vConfig [("b", .vInt 1)])] := rfl
example : Config.GetPath [("a", .vConfig [("b", .vInt 1)])] ["a", "b"] = .vNil := rfl
example : Config.GetPath [("a", .vConfig [("b", .vInt 1)])] ["a", "b"] ≠ .vInt 1 :=
  fun h => Value.noConfusion h

/-- GoError models the error values produced by `zhash.go`: `notFound` is
the struct `NotFoundError{Path}` (lines 22-32), `required` is the struct
`RequiredError{Path}` (lines 34-41), and `errorString` is an anonymous
`errors.New(fmt.Sprintf(...))` error carrying only its formatted message —
the form every conversion failure in the file takes. -/
inductive GoError where
  | notFound : List String → GoError
  | required : String → GoError
  | errorString : String → GoError
deriving DecidableEq, Repr

/-- dotted joins a path with `.`, as `strings.Join(path, ".")` does in the
error messages of `zhash.go`. -/
def dotted (path : List String) : String :=
  String.intercalate "." path

/-- Config.GetMap is the translation of `GetMap` (`zhash.go` lines
101-114): `nil` at the path gives `NotFoundError`, an unnamed
`map[string]interface{}` is returned, and anything else (including a
stored `Config`, which the type switch does not match) gives the
`errors.New` conversion error. -/
def Config.GetMap (c : Config) (path : List String) : Except GoError Config :=
  match Config.GetPath c path with
  | .vNil => .error (.notFound path)
  | .vMap val => .ok val
  | _ => .error (.errorString ("Error converting " ++ dotted path ++ " to map"))

/-- Config.GetString is the translation of `GetString` (`zhash.go` lines
116-128). -/
def Config.GetString (c : Config) (path : List String) : Except GoError String :=
  match Config.GetPath c path with
  | .vNil => .error (.notFound path)
  | .vStr val => .ok val
  | _ => .error (.errorString ("Error converting " ++ dotted path ++ " to string"))

/-- Config.GetSlice is the translation of `GetSlice` (`zhash.go` lines
130-143). -/
def Config.GetSlice (c : Config) (path : List String) : Except GoError (List Value) :=
  match Config.GetPath c path with
  | .vNil => .error (.notFound path)
  | .vSeq val => .ok val
  | _ => .error (.errorString ("Error converting " ++ dotted path ++ " to slice"))

/-- toStringSlice is the element loop of `GetStringSlice` (`zhash.go`
lines 152-163): it converts every element that is a string and aborts on
the first element that is not. -/
def toStringSlice : List Value → Option (List String)
  | [] => some []
  | .vStr s :: rest =>
      match toStringSlice rest with
      | some sl => some (s :: sl)
      | none => none
  | _ :: _ => none

/-- Config.GetStringSlice is the translation of `GetStringSlice`
(`zhash.go` lines 145-169): a non-sequence value gives the `to slice`
conversion error, a sequence with a non-string element gives the
`to string slice` conversion error, and otherwise the string elements are
returned. -/
def Config.GetStringSlice (c : Config) (path : List String) : Except GoError (List String) :=
  match Config.GetPath c path with
  | .vNil => .error (.notFound path)
  | .vSeq val =>
      match toStringSlice val with
      | some sl => .ok sl
      | none => .error (.errorString ("Error converting " ++ dotted path ++ " to string slice"))
  | _ => .error (.errorString ("Error converting " ++ dotted path ++ " to slice"))

/-- Config.GetBool is the translation of `GetBool` (`zhash.go` lines
171-183). -/
def Config.GetBool (c : Config) (path : List String) : Except GoError Bool :=
  match Config.GetPath c path with
  | .vNil => .error (.notFound path)
  | .vBool val => .ok val
  | _ => .error (.errorString ("Error converting " ++ dotted path ++ " to bool"))

/-- Config.GetInt is the translation of `GetInt` (`zhash.go` lines
185-199): a stored `int` is widened by `int64(val)` and a stored `int64`
is returned as is; both are the same mathematical integer in the model. -/
def Config.GetInt (c : Config) (path : List String) : Except GoError Int :=
  match Config.GetPath c path with
  | .vNil => .error (.notFound path)
  | .vInt val => .ok val
  | .vInt64 val => .ok val
  | _ => .error (.errorString ("Error converting " ++ dotted path ++ " to int"))

/-- Config.GetFloat is the translation of `GetFloat` (`zhash.go` lines
201-217): a stored `float64` is returned as is and a stored `int` or
`int64` is widened by the Go conversion `float64(val)`, modelled by
`Float64.ofInt`. -/
def Config.GetFloat (c : Config) (path : List String) : Except GoError Float64 :=
  match Config.GetPath c path with
  | .vNil => .error (.notFound path)
  | .vFloat val => .ok val
  | .vInt val => .ok (.ofInt val)
  | .vInt64 val => .ok (.ofInt val)
  | _ => .error (.errorString ("Error converting " ++ dotted path ++ " to float"))

mutual
/-- Value.nsize is a computable size of a tree node, counting only what
the validator can traverse; it is the termination measure of
`validateLoop`. -/
def Value.nsize : Value → Nat
  | .vMap m => 1 + entriesNsize m
  | _ => 1
/-- entriesNsize sums `Value.nsize` over the entries of a mapping, with
one extra unit per entry. -/
def entriesNsize : List (String × Value) → Nat
  | [] => 0
  | (_, v) :: rest => 1 + Value.nsize v + entriesNsize rest
end

/-- stackSize measures a validator work list by the sizes of its nodes. -/
def stackSize : List (String × Value) → Nat
  | [] => 0
  | (_, v) :: rest => Value.nsize v + stackSize rest

theorem Value.nsize_pos (v : Value) : 0 < Value.nsize v := by
  cases v <;> simp [Value.nsize]

theorem stackSize_append (a b : List (String × Value)) :
    stackSize (a ++ b) = stackSize a + stackSize b := by
  induction a with
  | nil => simp [stackSize]
  | cons hd tl ih => cases hd; simp [stackSize, ih]; omega

theorem stackSize_children (path : String) (m : List (String × Value)) :
    stackSize (m.map fun kv => (path ++ "." ++ kv.1, kv.2)) < Value.nsize (Value.vMap m) := by
  induction m with
  | nil => simp [stackSize, Value.nsize, entriesNsize]
  | cons hd tl ih =>
      cases hd with
      | mk k v =>
          simp [stackSize, Value.nsize, entriesNsize] at ih ⊢
          omega

/-- validateLoop is the work-list loop of `Validate` (`zhash.go` lines
228-245), with the top of the Go slice-stack modelled as the list head: a
`map[string]interface{}` frame is replaced by one frame per child keyed by
the dotted path, a string frame equal to `REQUIRED` emits a
`RequiredError`, and every other frame (scalars, sequences, and stored
`Config` values, which the type switch does not match) is dropped. Go map
iteration order is unspecified, so the model fixes the association-list
order for siblings; only the collection of emitted errors is relied on. -/
def validateLoop : List (String × Value) → List GoError
  | [] => []
  | (path, Value.vMap m) :: stack =>
      validateLoop ((m.map fun kv => (path ++ "." ++ kv.1, kv.2)) ++ stack)
  | (path, Value.vStr s) :: stack =>
      (if s = REQUIRED then [GoError.required path] else []) ++ validateLoop stack
  | (_, _) :: stack => validateLoop stack
termination_by st => stackSize st
decreasing_by
  · have h := stackSize_children path m
    simp [stackSize, stackSize_append]
    omega
  · simp [stackSize, Value.nsize]
  · rename_i p v
    simp [stackSize]
    have := Value.nsize_pos v
    omega

/-- Config.Validate is the translation of `Validate` (`zhash.go` lines
219-248): the initial work list holds every top-level binding with its key
as path, which as a frame list is the `Config` itself. -/
def Config.Validate (c : Config) : List GoError :=
  validateLoop c

mutual
/-- sentinelPathsV follows the spec's words for the validator (§4.3) under
the amended reading forced by the code: a "mapping" is the plain unnamed
`map[string]interface{}` (`vMap`) only, the sole case `Validate`'s type
switch (`zhash.go` line 235) matches. Such a mapping contributes its
children under dotted paths, a string equal to the required sentinel
contributes its own path, and nothing else is descended into — neither
sequences nor stored `Config`-typed mapping values (the latter is the
dropped case that makes the original claim false; see the C4
counterexample). It is the specification side of the refinement proved
about `Config.Validate`. -/
def sentinelPathsV (path : String) : Value → List String
  | .vStr s => if s = REQUIRED then [path] else []
  | .vMap m => sentinelPathsM path m
  | _ => []
/-- sentinelPathsM collects `sentinelPathsV` over the entries of a
mapping, in association-list order. -/
def sentinelPathsM (path : String) : List (String × Value) → List String
  | [] => []
  | (k, v) :: rest => sentinelPathsV (path ++ "." ++ k) v ++ sentinelPathsM path rest
end

/-- sentinelRootPaths collects the sentinel paths of every top-level
binding, the key itself serving as the root path. -/
def sentinelRootPaths : Config → List String
  | [] => []
  | (k, v) :: rest => sentinelPathsV k v ++ sentinelRootPaths rest

mutual
/-- Value.configFree holds when no `Config`-typed value (`vConfig`) occurs
at a position reachable through mappings, the positions path traversal can
meet; sequence elements are never traversed into and are unconstrained. -/
def Value.configFree : Value → Bool
  | .vConfig _ => false
  | .vMap m => entriesConfigFree m
  | _ => true
/-- entriesConfigFree checks `Value.configFree` on every entry of a
mapping. -/
def entriesConfigFree : List (String × Value) → Bool
  | [] => true
  | (_, v) :: rest => Value.configFree v && entriesConfigFree rest
end

/-- Value.isStr tests for the string case of the Go type switches. -/
def Value.isStr : Value → Bool
  | .vStr _ => true
  | _ => false

/-- Value.isBool tests for the bool case of the Go type switches. -/
def Value.isBool : Value → Bool
  | .vBool _ => true
  | _ => false

/-- Value.isSeq tests for the `[]interface{}` case of the Go type
switches. -/
def Value.isSeq : Value → Bool
  | .vSeq _ => true
  | _ => false

/-- Value.isMap tests for the unnamed `map[string]interface{}` case of the
Go type switches; a stored `Config` does not match it. -/
def Value.isMap : Value → Bool
  | .vMap _ => true
  | _ => false

/-- Value.isGoConfig tests for the named `Config` case, which only `Set`'s
type switch has. -/
def Value.isGoConfig : Value → Bool
  | .vConfig _ => true
  | _ => false

/-- Value.isIntLike holds on the cases `GetInt` accepts: `int` and
`int64`. -/
def Value.isIntLike : Value → Bool
  | .vInt _ => true
  | .vInt64 _ => true
  | _ => false

/-- Value.isFloatLike holds on the cases `GetFloat` accepts: `float64`,
`int` and `int64`. -/
def Value.isFloatLike : Value → Bool
  | .vFloat _ => true
  | .vInt _ => true
  | .vInt64 _ => true
  | _ => false

/-- allStrings holds when every element of a sequence is a string, the
success condition of `GetStringSlice`. -/
def allStrings (xs : List Value) : Bool :=
  xs.all Value.isStr

example : Config.Validate [("x", .vMap [("y", .vStr "[REQUIRED]")]), ("a", .vStr "ok")]
    = [GoError.required "x.y"] := by
  simp [Config.Validate, validateLoop, REQUIRED]
example : Config.Validate [("s", .vSeq [.vStr "[REQUIRED]"])] = [] := by
  simp [Config.Validate, validateLoop, REQUIRED]
example : Config.GetStringSlice [("a", .vSeq [.vStr "x", .vStr "y", .vInt 3])] ["a"]
    = .error (.errorString "Error converting a to string slice") := rfl
example : Config.GetStringSlice [("a", .vSeq [.vStr "x", .vStr "y"])] ["a"]
    = .ok ["x", "y"] := rfl
example : Config.GetInt [("a", .vFloat (.lit 0))] ["a"]
    = .error (.errorString "Error converting a to int") := rfl
example : Config.GetFloat [("a", .vInt 2)] ["a"] = .ok (.ofInt 2) := rfl

theorem mapGet_mapSet_self (c : Config) (k : String) (v : Value) :
    mapGet (mapSet c k v) k = v := by
  induction c with
  | nil => simp [mapGet, mapSet]
  | cons hd tl ih =>
      obtain ⟨k0, w⟩ := hd
      by_cases h : k0 = k <;> simp [mapGet, mapSet, h, ih]

theorem mapGet_mapSet_of_ne (c : Config) (k k0 : String) (v : Value) (h : k ≠ k0) :
    mapGet (mapSet c k v) k0 = mapGet c k0 := by
  induction c with
  | nil => simp [mapGet, mapSet, h]
  | cons hd tl ih =>
      obtain ⟨k1, w⟩ := hd
      by_cases h1 : k1 = k
      · subst h1
        simp [mapSet, mapGet, h]
      · simp [mapSet, h1, mapGet, ih]

theorem hasKey_mapSet_self (c : Config) (k : String) (v : Value) :
    hasKey (mapSet c k v) k = true := by
  induction c with
  | nil => simp [hasKey, mapSet]
  | cons hd tl ih =>
      obtain ⟨k0, w⟩ := hd
      by_cases h : k0 = k <;> simp [hasKey, mapSet, h, ih]

theorem entriesConfigFree_mapGet (c : Config) (k : String)
    (h : entriesConfigFree c = true) : Value.configFree (mapGet c k) = true := by
  induction c with
  | nil => simp [mapGet, Value.configFree]
  | cons hd tl ih =>
      obtain ⟨k0, w⟩ := hd
      simp [entriesConfigFree, Bool.and_eq_true] at h
      by_cases hk : k0 = k <;> simp [mapGet, hk]
      · exact h.1
      · exact ih h.2

theorem set_cons_map (c : Config) (v : Value) (k : String) (t : List String)
    (node : Config) (hm : mapGet c k = .vMap node) (ht : t ≠ []) :
    Config.Set c v (k :: t) = mapSet c k (.vMap (Config.Set node v t)) := by
  cases t with
  | nil => exact absurd rfl ht
  | cons r rest => simp [Config.Set, hm]

theorem set_cons_config (c : Config) (v : Value) (k : String) (t : List String)
    (node : Config) (hm : mapGet c k = .vConfig node) (ht : t ≠ []) :
    Config.Set c v (k :: t) = mapSet c k (.vConfig (Config.Set node v t)) := by
  cases t with
  | nil => exact absurd rfl ht
  | cons r rest => simp [Config.Set, hm]

theorem set_cons_default (c : Config) (v : Value) (k : String) (t : List String)
    (h1 : Value.isMap (mapGet c k) = false) (h2 : Value.isGoConfig (mapGet c k) = false)
    (ht : t ≠ []) :
    Config.Set c v (k :: t) = mapSet c k (.vMap (Config.Set [] v t)) := by
  cases t with
  | nil => exact absurd rfl ht
  | cons r rest =>
      rcases hm : mapGet c k <;>
        simp [hm, Value.isMap, Value.isGoConfig] at h1 h2 ⊢ <;>
        simp [Config.Set, hm]

theorem getPath_cons_map (c : Config) (k : String) (t : List String)
    (node : Config) (hm : mapGet c k = .vMap node) (ht : t ≠ []) :
    Config.GetPath c (k :: t) = Config.GetPath node t := by
  cases t with
  | nil => exact absurd rfl ht
  | cons r rest => simp [Config.GetPath, hm]

theorem getPath_cons_notMap (c : Config) (k : String) (t : List String)
    (h1 : Value.isMap (mapGet c k) = false) (ht : t ≠ []) :
    Config.GetPath c (k :: t) = .vNil := by
  cases t with
  | nil => exact absurd rfl ht
  | cons r rest =>
      rcases hm : mapGet c k <;>
        simp [hm, Value.isMap] at h1 ⊢ <;>
        simp [Config.GetPath, hm]

theorem getPath_set_self (p : List String) : ∀ (c : Config) (v : Value),
    p ≠ [] → entriesConfigFree c = true →
    Config.GetPath (Config.Set c v p) p = v := by
  induction p with
  | nil => intro c v h _; exact absurd rfl h
  | cons k t ih =>
      intro c v _ hfree
      cases t with
      | nil => simp [Config.Set, Config.GetPath, mapGet_mapSet_self]
      | cons r rest =>
          have hk := entriesConfigFree_mapGet c k hfree
          have ht : (r :: rest : List String) ≠ [] := by simp
          rcases hm : mapGet c k with _ | s | b | n | n | f | xs | node | node
          case vMap =>
              rw [hm, Value.configFree] at hk
              rw [set_cons_map c v k (r :: rest) node hm ht,
                getPath_cons_map _ k (r :: rest) _ (mapGet_mapSet_self c k _) ht]
              exact ih node v ht hk
          case vConfig =>
              rw [hm, Value.configFree] at hk
              exact absurd hk (by simp)
          all_goals
            rw [set_cons_default c v k (r :: rest) (by simp [hm, Value.isMap])
              (by simp [hm, Value.isGoConfig]) ht,
              getPath_cons_map _ k (r :: rest) _ (mapGet_mapSet_self c k _) ht]
          all_goals exact ih [] v ht (by simp [entriesConfigFree])

theorem getPath_set_vNil (p : List String) : ∀ c : Config,
    Config.GetPath (Config.Set c .vNil p) p = .vNil := by
  induction p with
  | nil => intro c; simp [Config.GetPath]
  | cons k t ih =>
      intro c
      cases t with
      | nil => simp [Config.Set, Config.GetPath, mapGet_mapSet_self]
      | cons r rest =>
          have ht : (r :: rest : List String) ≠ [] := by simp
          rcases hm : mapGet c k with _ | s | b | n | n | f | xs | node | node
          case vMap =>
              rw [set_cons_map c _ k (r :: rest) node hm ht,
                getPath_cons_map _ k (r :: rest) _ (mapGet_mapSet_self c k _) ht]
              exact ih node
          case vConfig =>
              rw [set_cons_config c _ k (r :: rest) node hm ht]
              exact getPath_cons_notMap _ k (r :: rest)
                (by simp [mapGet_mapSet_self, Value.isMap]) ht
          all_goals
            rw [set_cons_default c _ k (r :: rest) (by simp [hm, Value.isMap])
              (by simp [hm, Value.isGoConfig]) ht,
              getPath_cons_map _ k (r :: rest) _ (mapGet_mapSet_self c k _) ht]
          all_goals exact ih []

theorem set_cons_shape (c : Config) (v : Value) (k : String) (t : List String) :
    ∃ Y, Config.Set c v (k :: t) = mapSet c k Y := by
  cases t with
  | nil => exact ⟨v, by simp [Config.Set]⟩
  | cons r rest =>
      have ht : (r :: rest : List String) ≠ [] := by simp
      rcases hm : mapGet c k with _ | s | b | n | n | f | xs | node | node
      case vMap => exact ⟨_, set_cons_map c v k (r :: rest) node hm ht⟩
      case vConfig => exact ⟨_, set_cons_config c v k (r :: rest) node hm ht⟩
      all_goals exact ⟨_, set_cons_default c v k (r :: rest)
        (by simp [hm, Value.isMap]) (by simp [hm, Value.isGoConfig]) ht⟩

theorem getPath_mapSet_other (c : Config) (k : String) (Y : Value)
    (k1 : String) (t : List String) (h : k ≠ k1) :
    Config.GetPath (mapSet c k Y) (k1 :: t) = Config.GetPath c (k1 :: t) := by
  cases t with
  | nil => simp [Config.GetPath, mapGet_mapSet_of_ne c k k1 Y h]
  | cons r rest => simp [Config.GetPath, mapGet_mapSet_of_ne c k k1 Y h]

theorem getPath_set_set_other (stem : List String) :
    ∀ (c : Config) (v1 v2 : Value) (k1 : String) (t1 : List String)
      (k2 : String) (t2 : List String),
    entriesConfigFree c = true → k1 ≠ k2 →
    Config.GetPath
      (Config.Set (Config.Set c v1 (stem ++ k1 :: t1)) v2 (stem ++ k2 :: t2))
      (stem ++ k1 :: t1) = v1 := by
  induction stem with
  | nil =>
      intro c v1 v2 k1 t1 k2 t2 hfree hne
      simp only [List.nil_append]
      obtain ⟨Y, hY⟩ := set_cons_shape (Config.Set c v1 (k1 :: t1)) v2 k2 t2
      rw [hY, getPath_mapSet_other _ k2 Y k1 t1 (Ne.symm hne)]
      exact getPath_set_self (k1 :: t1) c v1 (by simp) hfree
  | cons s stem' ih =>
      intro c v1 v2 k1 t1 k2 t2 hfree hne
      have h1 : stem' ++ k1 :: t1 ≠ [] := by simp
      have h2 : stem' ++ k2 :: t2 ≠ [] := by simp
      have hk := entriesConfigFree_mapGet c s hfree
      simp only [List.cons_append]
      rcases hm : mapGet c s with _ | str | b | n | n | f | xs | node | node
      case vMap =>
          rw [hm, Value.configFree] at hk
          rw [set_cons_map c v1 s _ node hm h1]
          rw [set_cons_map _ v2 s _ _ (mapGet_mapSet_self c s _) h2]
          rw [getPath_cons_map _ s _ _ (mapGet_mapSet_self _ s _) h1]
          exact ih _ v1 v2 k1 t1 k2 t2 hk hne
      case vConfig =>
          rw [hm, Value.configFree] at hk
          exact absurd hk (by simp)
      all_goals
        rw [set_cons_default c v1 s _ (by simp [hm, Value.isMap])
          (by simp [hm, Value.isGoConfig]) h1]
      all_goals
        rw [set_cons_map _ v2 s _ _ (mapGet_mapSet_self c s _) h2]
      all_goals
        rw [getPath_cons_map _ s _ _ (mapGet_mapSet_self _ s _) h1]
      all_goals
        exact ih _ v1 v2 k1 t1 k2 t2 (by simp [entriesConfigFree]) hne

theorem toStringSlice_of_allStrings : ∀ xs : List Value, allStrings xs = true →
    ∃ l, toStringSlice xs = some l ∧ xs = l.map Value.vStr := by
  intro xs
  induction xs with
  | nil => intro _; exact ⟨[], by simp [toStringSlice]⟩
  | cons hd tl ih =>
      intro h
      simp only [allStrings, List.all_cons, Bool.and_eq_true] at h
      obtain ⟨h1, h2⟩ := h
      cases hd <;> simp [Value.isStr] at h1
      rename_i s
      obtain ⟨l, hl, hxs⟩ := ih h2
      exact ⟨s :: l, by simp [toStringSlice, hl], by simp [hxs]⟩

theorem toStringSlice_of_not_allStrings : ∀ xs : List Value, allStrings xs = false →
    toStringSlice xs = none := by
  intro xs
  induction xs with
  | nil => intro h; simp [allStrings] at h
  | cons hd tl ih =>
      intro h
      simp only [allStrings, List.all_cons, Bool.and_eq_false_iff] at h
      cases hd <;> simp [toStringSlice]
      rcases h with h | h
      · simp [Value.isStr] at h
      · simp [ih h]

theorem sentinelRootPaths_append (a b : Config) :
    sentinelRootPaths (a ++ b) = sentinelRootPaths a ++ sentinelRootPaths b := by
  induction a with
  | nil => simp [sentinelRootPaths]
  | cons hd tl ih =>
      obtain ⟨k, v⟩ := hd
      simp [sentinelRootPaths, ih]

theorem sentinelRootPaths_frames (path : String) (m : List (String × Value)) :
    sentinelRootPaths (m.map fun kv => (path ++ "." ++ kv.1, kv.2))
      = sentinelPathsM path m := by
  induction m with
  | nil => simp [sentinelRootPaths, sentinelPathsM]
  | cons hd tl ih =>
      obtain ⟨k, v⟩ := hd
      simp [sentinelRootPaths, sentinelPathsM, ih]

theorem validateLoop_eq : (st : List (String × Value)) →
    validateLoop st = (sentinelRootPaths st).map GoError.required
  | [] => by simp [validateLoop, sentinelRootPaths]
  | (path, .vNil) :: stack => by
      have h := validateLoop_eq stack
      simp [validateLoop, sentinelRootPaths, sentinelPathsV, h]
  | (path, .vStr s) :: stack => by
      have h := validateLoop_eq stack
      by_cases hs : s = REQUIRED <;>
        simp [validateLoop, sentinelRootPaths, sentinelPathsV, h, hs]
  | (path, .vBool b) :: stack => by
      have h := validateLoop_eq stack
      simp [validateLoop, sentinelRootPaths, sentinelPathsV, h]
  | (path, .vInt n) :: stack => by
      have h := validateLoop_eq stack
      simp [validateLoop, sentinelRootPaths, sentinelPathsV, h]
  | (path, .vInt64 n) :: stack => by
      have h := validateLoop_eq stack
      simp [validateLoop, sentinelRootPaths, sentinelPathsV, h]
  | (path, .vFloat f) :: stack => by
      have h := validateLoop_eq stack
      simp [validateLoop, sentinelRootPaths, sentinelPathsV, h]
  | (path, .vSeq xs) :: stack => by
      have h := validateLoop_eq stack
      simp [validateLoop, sentinelRootPaths, sentinelPathsV, h]
  | (path, .vMap m) :: stack => by
      have h := validateLoop_eq ((m.map fun kv => (path ++ "." ++ kv.1, kv.2)) ++ stack)
      simp [validateLoop, h, sentinelRootPaths_append, sentinelRootPaths_frames,
        sentinelRootPaths, sentinelPathsV]
  | (path, .vConfig m) :: stack => by
      have h := validateLoop_eq stack
      simp [validateLoop, sentinelRootPaths, sentinelPathsV, h]
termination_by st => stackSize st
decreasing_by
  · simp [stackSize, Value.nsize]
  · simp [stackSize, Value.nsize]
  · simp [stackSize, Value.nsize]
  · simp [stackSize, Value.nsize]
  · simp [stackSize, Value.nsize]
  · simp [stackSize, Value.nsize]
  · simp [stackSize, Value.nsize]
  · have h := stackSize_children path m
    simp [stackSize, stackSize_append, Value.nsize] at h ⊢
    omega
  · simp [stackSize, Value.nsize]

/-- C1 counterexample: the claim quantifies over all paths and all
Configs, but (i) with the empty path `Set` writes under the key `""`
while `GetPath` of the empty path returns `nil`, and (ii) when the path
passes through a stored `Config`-typed value, `Set` descends into it
(`case Config:` in `Set`'s type switch) while `GetPath` has no such case
and returns `nil`; in both instances the value written is not read back. -/
theorem set_then_getPath_cex :
    Config.GetPath (Config.Set [] (.vInt 1) []) [] ≠ .vInt 1
    ∧ Config.GetPath
        (Config.Set [("a", .vConfig [])] (.vInt 1) ["a", "b"]) ["a", "b"] ≠ .vInt 1 :=
  ⟨fun h => Value.noConfusion h, fun h => Value.noConfusion h⟩

/-- C1 (amended): write-then-read holds for every nonempty path and every
value — scalar, mapping, sequence or nil — on every Config whose tree
holds no `Config`-typed value at a mapping position: `Set v p` followed by
`GetPath p` returns exactly `v`, including when `p` passes through a key
previously holding a scalar (destructively auto-vivified into a fresh
mapping) and when it passes through an unrelated plain mapping (descended
into). -/
theorem set_then_getPath (c : Config) (v : Value) (p : List String)
    (hp : p ≠ []) (hfree : entriesConfigFree c = true) :
    Config.GetPath (Config.Set c v p) p = v :=
  getPath_set_self p c v hp hfree

/-- C1 witness: a concrete write through a key holding an unrelated
mapping reads back the written value. -/
theorem set_then_getPath_witness :
    Config.GetPath
      (Config.Set [("a", .vMap [("x", .vStr "keep")])] (.vBool true) ["a", "b", "c"])
      ["a", "b", "c"] = .vBool true :=
  set_then_getPath [("a", .vMap [("x", .vStr "keep")])] (.vBool true) ["a", "b", "c"]
    (by simp) (by simp [entriesConfigFree, Value.configFree])

/-- C2 counterexample: at the non-final segment `"a"`, `GetPath` does not
treat the stored `Config` value as a mapping (reading through it gives
`nil`), so by the claim `Set` should overwrite the key with a fresh empty
mapping; instead `Set` descends into the `Config` and preserves its
existing binding `s ↦ 2`, refuting the claimed iff. -/
theorem set_step_behavior_cex :
    Config.Set [("a", .vConfig [("s", .vInt 2)])] (.vInt 1) ["a", "r"]
      = [("a", .vConfig [("s", .vInt 2), ("r", .vInt 1)])]
    ∧ Config.GetPath [("a", .vConfig [("s", .vInt 2)])] ["a", "s"] = .vNil :=
  ⟨rfl, rfl⟩

/-- C2 (amended): at a non-final segment `Set` descends when the key holds
a plain mapping — the one case in which `GetPath` also descends — and
additionally when it holds a `Config`-typed value, into which `GetPath`
never descends (it returns `nil` there); in every other case `Set`
overwrites the key with a freshly created empty mapping and descends into
it; at the final segment the key is set to the given value
unconditionally, overwriting whatever was there. -/
theorem set_step_behavior (c : Config) (v : Value) (k : String) (t : List String)
    (ht : t ≠ []) :
    (∀ node, mapGet c k = .vMap node →
        Config.Set c v (k :: t) = mapSet c k (.vMap (Config.Set node v t))
        ∧ Config.GetPath c (k :: t) = Config.GetPath node t)
    ∧ (∀ node, mapGet c k = .vConfig node →
        Config.Set c v (k :: t) = mapSet c k (.vConfig (Config.Set node v t))
        ∧ Config.GetPath c (k :: t) = .vNil)
    ∧ (Value.isMap (mapGet c k) = false → Value.isGoConfig (mapGet c k) = false →
        Config.Set c v (k :: t) = mapSet c k (.vMap (Config.Set [] v t))
        ∧ Config.GetPath c (k :: t) = .vNil)
    ∧ (∀ w, Config.Set c w [k] = mapSet c k w) := by
  refine ⟨?_, ?_, ?_, ?_⟩
  · intro node hm
    exact ⟨set_cons_map c v k t node hm ht, getPath_cons_map c k t node hm ht⟩
  · intro node hm
    exact ⟨set_cons_config c v k t node hm ht,
      getPath_cons_notMap c k t (by simp [hm, Value.isMap]) ht⟩
  · intro h1 h2
    exact ⟨set_cons_default c v k t h1 h2 ht, getPath_cons_notMap c k t h1 ht⟩
  · intro w
    simp [Config.Set]

/-- C2 witness: the amended step behaviour evaluated at a concrete map
whose key holds a `Config` value. -/
theorem set_step_behavior_witness :
    Config.Set [("a", Value.vConfig [("s", Value.vInt 2)])] (.vInt 1) ["a", "r"]
      = mapSet [("a", Value.vConfig [("s", Value.vInt 2)])] "a"
          (.vConfig (Config.Set [("s", Value.vInt 2)] (.vInt 1) ["r"]))
    ∧ Config.GetPath [("a", Value.vConfig [("s", Value.vInt 2)])] ["a", "r"] = .vNil :=
  (set_step_behavior [("a", Value.vConfig [("s", Value.vInt 2)])] (.vInt 1) "a" ["r"]
    (by simp)).2.1 [("s", Value.vInt 2)] rfl

/-- C3 counterexample: on the Config `{a: Config{}}` the two writes
`Set 1 a.b.c` and `Set 2 a.b.d` both descend into the stored
`Config`-typed value, but `GetPath a.b.c` does not (its type switch lacks
the `Config` case and returns `nil`), so the first written value is not
read back as the claim requires for every Config. -/
theorem sibling_preservation_cex :
    Config.GetPath
      (Config.Set (Config.Set [("a", .vConfig [])] (.vInt 1) ["a", "b", "c"])
        (.vInt 2) ["a", "b", "d"])
      ["a", "b", "c"] ≠ .vInt 1 :=
  fun h => Value.noConfusion h

/-- C3 (amended): on every Config whose tree holds no `Config`-typed value
at a mapping position, `Set 1 a.b.c` followed by `Set 2 a.b.d` leaves
`GetPath a.b.c = 1`; in general, for two writes whose paths share a prefix
and then diverge at distinct keys, the second write leaves the value
written by the first intact. -/
theorem sibling_preservation (c : Config) (hfree : entriesConfigFree c = true) :
    Config.GetPath
      (Config.Set (Config.Set c (.vInt 1) ["a", "b", "c"]) (.vInt 2) ["a", "b", "d"])
      ["a", "b", "c"] = .vInt 1
    ∧ ∀ (stem : List String) (v1 v2 : Value) (k1 : String) (t1 : List String)
        (k2 : String) (t2 : List String), k1 ≠ k2 →
        Config.GetPath
          (Config.Set (Config.Set c v1 (stem ++ k1 :: t1)) v2 (stem ++ k2 :: t2))
          (stem ++ k1 :: t1) = v1 := by
  constructor
  · have h := getPath_set_set_other ["a", "b"] c (.vInt 1) (.vInt 2) "c" [] "d" []
      hfree (by simp)
    simpa using h
  · intro stem v1 v2 k1 t1 k2 t2 hne
    exact getPath_set_set_other stem c v1 v2 k1 t1 k2 t2 hfree hne

/-- C3 witness: the two writes on the empty Config preserve the first
value. -/
theorem sibling_preservation_witness :
    Config.GetPath
      (Config.Set (Config.Set [] (.vInt 1) ["a", "b", "c"]) (.vInt 2) ["a", "b", "d"])
      ["a", "b", "c"] = .vInt 1 :=
  (sibling_preservation [] (by simp [entriesConfigFree])).1

/-- C4 counterexample: the sentinel at `a.b` under a stored
`Config`-typed mapping value is reachable from the root through mapping
values, and at the identical position under a plain mapping `Validate`
reports exactly it; yet under the `Config`-typed mapping `Validate`
returns the empty error set — its type switch (`zhash.go` lines 234-244)
has only `case map[string]interface{}:`, which the named type `Config`
does not match — refuting both "exactly one error per reachable sentinel"
and "empty exactly when no such sentinel exists". -/
theorem validate_required_refinement_cex :
    Config.Validate [("a", .vMap [("b", .vStr REQUIRED)])] = [GoError.required "a.b"]
    ∧ Config.Validate [("a", .vConfig [("b", .vStr REQUIRED)])] = [] := by
  constructor
  · simp [Config.Validate, validateLoop, REQUIRED]
  · simp [Config.Validate, validateLoop]

/-- C4 (amended): `Validate` returns exactly one `RequiredError` per
string node equal to the required sentinel reachable from the root through
plain unnamed mappings only — stored `Config`-typed mapping values, like
sequences, are never descended into — each error carrying its dotted path,
with no short-circuiting and an empty result when no such sentinel exists:
it equals the specification-side collection `sentinelRootPaths` mapped
into errors; a Config binding a key to any sequence or to any
`Config`-typed value — in particular one containing the sentinel —
contributes no errors. -/
theorem validate_required_refinement :
    (∀ c : Config, Config.Validate c = (sentinelRootPaths c).map GoError.required)
    ∧ (∀ (k : String) (xs : List Value), Config.Validate [(k, .vSeq xs)] = [])
    ∧ (∀ (k : String) (m : List (String × Value)),
        Config.Validate [(k, .vConfig m)] = []) := by
  refine ⟨?_, ?_, ?_⟩
  · intro c
    simpa [Config.Validate] using validateLoop_eq c
  · intro k xs
    have h := validateLoop_eq [(k, .vSeq xs)]
    simpa [Config.Validate, sentinelRootPaths, sentinelPathsV] using h
  · intro k m
    have h := validateLoop_eq [(k, .vConfig m)]
    simpa [Config.Validate, sentinelRootPaths, sentinelPathsV] using h

/-- C5: whenever traversal finds no value (`GetPath` returns the `nil`
interface, its first-class absence result — it itself never fails), every
typed accessor fails with exactly the structured `NotFoundError` carrying
the requested path, never with a conversion error. -/
theorem absent_accessors_notFound (c : Config) (p : List String)
    (h : Config.GetPath c p = .vNil) :
    Config.GetMap c p = .error (.notFound p)
    ∧ Config.GetString c p = .error (.notFound p)
    ∧ Config.GetSlice c p = .error (.notFound p)
    ∧ Config.GetStringSlice c p = .error (.notFound p)
    ∧ Config.GetBool c p = .error (.notFound p)
    ∧ Config.GetInt c p = .error (.notFound p)
    ∧ Config.GetFloat c p = .error (.notFound p) := by
  refine ⟨?_, ?_, ?_, ?_, ?_, ?_, ?_⟩ <;>
    simp [Config.GetMap, Config.GetString, Config.GetSlice, Config.GetStringSlice,
      Config.GetBool, Config.GetInt, Config.GetFloat, h]

/-- C5 witness: a typed accessor on a missing key fails with
`NotFoundError` for that path. -/
theorem absent_accessors_notFound_witness :
    Config.GetString [] ["missing"] = .error (.notFound ["missing"]) :=
  (absent_accessors_notFound [] ["missing"] rfl).2.1

/-- C6 counterexample: a type-mismatched read does not produce a
structured conversion-error value carrying the path and target kind — it
produces an anonymous `errors.New` error whose only content is the
formatted message (modelled by `GoError.errorString`, a bare string with
no path or kind fields), as the source builds at
`zhash.go` lines 110-112, 125-126, 139-141, 158-167, 180-181, 196-197 and
214-215. -/
theorem conversion_error_unstructured_cex :
    Config.GetString [("a", .vInt 1)] ["a"]
      = .error (.errorString "Error converting a to string")
    ∧ Config.GetInt [("a", .vStr "x")] ["a"]
      = .error (.errorString "Error converting a to int") :=
  ⟨rfl, rfl⟩

/-- C6 (amended): for every path holding a value whose concrete type does
not match the requested target type, every typed accessor fails with an
anonymous string error — distinguishable from the structured
`NotFoundError` — whose formatted message names the dotted path and the
requested target kind; the path and kind live only inside the message
text, not as structured fields. -/
theorem conversion_error_message (c : Config) (p : List String) (v : Value)
    (hv : Config.GetPath c p = v) (hnil : v ≠ .vNil) :
    (Value.isMap v = false →
      Config.GetMap c p
        = .error (.errorString ("Error converting " ++ dotted p ++ " to map")))
    ∧ (Value.isStr v = false →
      Config.GetString c p
        = .error (.errorString ("Error converting " ++ dotted p ++ " to string")))
    ∧ (Value.isSeq v = false →
      Config.GetSlice c p
        = .error (.errorString ("Error converting " ++ dotted p ++ " to slice")))
    ∧ (Value.isSeq v = false →
      Config.GetStringSlice c p
        = .error (.errorString ("Error converting " ++ dotted p ++ " to slice")))
    ∧ (∀ xs, v = .vSeq xs → allStrings xs = false →
      Config.GetStringSlice c p
        = .error (.errorString ("Error converting " ++ dotted p ++ " to string slice")))
    ∧ (Value.isBool v = false →
      Config.GetBool c p
        = .error (.errorString ("Error converting " ++ dotted p ++ " to bool")))
    ∧ (Value.isIntLike v = false →
      Config.GetInt c p
        = .error (.errorString ("Error converting " ++ dotted p ++ " to int")))
    ∧ (Value.isFloatLike v = false →
      Config.GetFloat c p
        = .error (.errorString ("Error converting " ++ dotted p ++ " to float"))) := by
  refine ⟨?_, ?_, ?_, ?_, ?_, ?_, ?_, ?_⟩
  · intro h
    cases v
    case vNil => exact absurd rfl hnil
    case vMap => simp [Value.isMap] at h
    all_goals simp [Config.GetMap, hv]
  · intro h
    cases v
    case vNil => exact absurd rfl hnil
    case vStr => simp [Value.isStr] at h
    all_goals simp [Config.GetString, hv]
  · intro h
    cases v
    case vNil => exact absurd rfl hnil
    case vSeq => simp [Value.isSeq] at h
    all_goals simp [Config.GetSlice, hv]
  · intro h
    cases v
    case vNil => exact absurd rfl hnil
    case vSeq => simp [Value.isSeq] at h
    all_goals simp [Config.GetStringSlice, hv]
  · intro xs hxs hall
    rw [hxs] at hv
    simp [Config.GetStringSlice, hv, toStringSlice_of_not_allStrings xs hall]
  · intro h
    cases v
    case vNil => exact absurd rfl hnil
    case vBool => simp [Value.isBool] at h
    all_goals simp [Config.GetBool, hv]
  · intro h
    cases v
    case vNil => exact absurd rfl hnil
    case vInt => simp [Value.isIntLike] at h
    case vInt64 => simp [Value.isIntLike] at h
    all_goals simp [Config.GetInt, hv]
  · intro h
    cases v
    case vNil => exact absurd rfl hnil
    case vInt => simp [Value.isFloatLike] at h
    case vInt64 => simp [Value.isFloatLike] at h
    case vFloat => simp [Value.isFloatLike] at h
    all_goals simp [Config.GetFloat, hv]

/-- C6 witness: the amended conversion behaviour evaluated on a stored
int read as bool. -/
theorem conversion_error_message_witness :
    Config.GetBool [("a", .vInt 1)] ["a"]
      = .error (.errorString "Error converting a to bool") :=
  (conversion_error_message [("a", .vInt 1)] ["a"] (.vInt 1) rfl
    (fun hh => Value.noConfusion hh)).2.2.2.2.2.1 rfl

/-- C7: `GetInt` succeeds exactly on a stored `int` or `int64`, returning
the same integer as a 64-bit int; it fails with the conversion error on a
stored float; `GetFloat` succeeds exactly on a stored `float64`, `int` or
`int64`, returning the stored float or the widened `float64(n)`; and
neither accessor ever accepts a stored string. -/
theorem numeric_coercion (c : Config) (p : List String) (v : Value)
    (hv : Config.GetPath c p = v) :
    (∀ n : Int, v = .vInt n →
        Config.GetInt c p = .ok n ∧ Config.GetFloat c p = .ok (.ofInt n))
    ∧ (∀ n : Int, v = .vInt64 n →
        Config.GetInt c p = .ok n ∧ Config.GetFloat c p = .ok (.ofInt n))
    ∧ (∀ f, v = .vFloat f → Config.GetFloat c p = .ok f
        ∧ Config.GetInt c p
            = .error (.errorString ("Error converting " ++ dotted p ++ " to int")))
    ∧ (Value.isIntLike v = false → ∀ n, Config.GetInt c p ≠ .ok n)
    ∧ (Value.isFloatLike v = false → ∀ f, Config.GetFloat c p ≠ .ok f)
    ∧ (∀ s, v = .vStr s →
        Config.GetInt c p
          = .error (.errorString ("Error converting " ++ dotted p ++ " to int"))
        ∧ Config.GetFloat c p
          = .error (.errorString ("Error converting " ++ dotted p ++ " to float"))) := by
  refine ⟨?_, ?_, ?_, ?_, ?_, ?_⟩
  · intro n hn
    rw [hn] at hv
    exact ⟨by simp [Config.GetInt, hv], by simp [Config.GetFloat, hv]⟩
  · intro n hn
    rw [hn] at hv
    exact ⟨by simp [Config.GetInt, hv], by simp [Config.GetFloat, hv]⟩
  · intro f hf
    rw [hf] at hv
    exact ⟨by simp [Config.GetFloat, hv], by simp [Config.GetInt, hv]⟩
  · intro h n
    cases v
    case vInt => simp [Value.isIntLike] at h
    case vInt64 => simp [Value.isIntLike] at h
    all_goals simp [Config.GetInt, hv]
  · intro h f
    cases v
    case vInt => simp [Value.isFloatLike] at h
    case vInt64 => simp [Value.isFloatLike] at h
    case vFloat => simp [Value.isFloatLike] at h
    all_goals simp [Config.GetFloat, hv]
  · intro s hs
    rw [hs] at hv
    exact ⟨by simp [Config.GetInt, hv], by simp [Config.GetFloat, hv]⟩

/-- C7 witness: a stored int widens to float and a stored float is
rejected by the int accessor. -/
theorem numeric_coercion_witness :
    Config.GetFloat [("a", .vInt 5)] ["a"] = .ok (.ofInt 5)
    ∧ Config.GetInt [("b", .vFloat (.lit 0))] ["b"]
      = .error (.errorString "Error converting b to int") :=
  ⟨((numeric_coercion [("a", .vInt 5)] ["a"] (.vInt 5) rfl).1 5 rfl).2,
    ((numeric_coercion [("b", .vFloat (.lit 0))] ["b"] (.vFloat (.lit 0)) rfl).2.2.1
      (.lit 0) rfl).2⟩

/-- C8: `GetStringSlice` is all-or-nothing on a stored generic sequence:
when every element is individually a string it succeeds with exactly those
strings, and when any element is not a string the whole call fails with
the conversion error, returning no partial or filtered result. -/
theorem stringSlice_all_or_nothing (c : Config) (p : List String) (xs : List Value)
    (hv : Config.GetPath c p = .vSeq xs) :
    (allStrings xs = true →
        ∃ l, Config.GetStringSlice c p = .ok l ∧ xs = l.map Value.vStr)
    ∧ (allStrings xs = false →
        Config.GetStringSlice c p
          = .error (.errorString ("Error converting " ++ dotted p ++ " to string slice"))) := by
  constructor
  · intro hall
    obtain ⟨l, hl, hxs⟩ := toStringSlice_of_allStrings xs hall
    exact ⟨l, by simp [Config.GetStringSlice, hv, hl], hxs⟩
  · intro hall
    simp [Config.GetStringSlice, hv, toStringSlice_of_not_allStrings xs hall]

/-- C8 witness: on the sequence `["a", "b", 3]` the accessor fails with
the string-slice conversion error rather than returning a partial
result, and on `["a", "b"]` it succeeds. -/
theorem stringSlice_all_or_nothing_witness :
    Config.GetStringSlice [("k", .vSeq [.vStr "a", .vStr "b", .vInt 3])] ["k"]
      = .error (.errorString "Error converting k to string slice")
    ∧ ∃ l, Config.GetStringSlice [("k", .vSeq [.vStr "a", .vStr "b"])] ["k"] = .ok l
        ∧ [Value.vStr "a", Value.vStr "b"] = l.map Value.vStr :=
  ⟨(stringSlice_all_or_nothing [("k", .vSeq [.vStr "a", .vStr "b", .vInt 3])] ["k"]
      [.vStr "a", .vStr "b", .vInt 3] rfl).2 rfl,
    (stringSlice_all_or_nothing [("k", .vSeq [.vStr "a", .vStr "b"])] ["k"]
      [.vStr "a", .vStr "b"] rfl).1 rfl⟩

/-- C9: `GetPath` with the empty path returns the `nil` interface
(absence); `Set` with the empty path is not a no-op — it assigns the value
under the empty-string key at the root mapping, observable by reading the
path `[""]` afterwards. -/
theorem empty_path_behavior (c : Config) (v : Value) :
    Config.GetPath c [] = .vNil
    ∧ Config.Set c v [] = mapSet c "" v
    ∧ Config.GetPath (Config.Set c v []) [""] = v := by
  refine ⟨rfl, rfl, ?_⟩
  simp [Config.Set, Config.GetPath, mapGet_mapSet_self]

/-- C10: a key holding the `nil` interface is indistinguishable from an
absent key at the public interface: after `Set nil p` — for any path,
including through stored `Config` values and fresh auto-vivified maps —
`GetPath p` returns the `nil` absence result and every typed accessor
fails with `NotFoundError` for `p`, never a conversion error, even though
the final key exists in the tree (shown by `hasKey` after a root write). -/
theorem nil_set_indistinguishable (c : Config) (p : List String) (k : String) :
    Config.GetPath (Config.Set c .vNil p) p = .vNil
    ∧ (Config.GetMap (Config.Set c .vNil p) p = .error (.notFound p)
      ∧ Config.GetString (Config.Set c .vNil p) p = .error (.notFound p)
      ∧ Config.GetSlice (Config.Set c .vNil p) p = .error (.notFound p)
      ∧ Config.GetStringSlice (Config.Set c .vNil p) p = .error (.notFound p)
      ∧ Config.GetBool (Config.Set c .vNil p) p = .error (.notFound p)
      ∧ Config.GetInt (Config.Set c .vNil p) p = .error (.notFound p)
      ∧ Config.GetFloat (Config.Set c .vNil p) p = .error (.notFound p))
    ∧ hasKey (Config.Set c .vNil [k]) k = true := by
  have h := getPath_set_vNil p c
  refine ⟨h, ⟨?_, ?_, ?_, ?_, ?_, ?_, ?_⟩, ?_⟩ <;>
    simp [Config.GetMap, Config.GetString, Config.GetSlice, Config.GetStringSlice,
      Config.GetBool, Config.GetInt, Config.GetFloat, h, Config.Set, hasKey_mapSet_self]
